import Mathlib

/-!
Shallow embedding of the Arke orchestrator-template core.

The repository ships two executions of the same design:

* the tick-driven Durable Object (`OrchestratorJob` in `orchestrator-job.ts`):
  `handleStart` creates the job record, and each alarm runs `processAlarm`,
  which dispatches pending entities up to the concurrency budget, polls
  in-flight entities, recomputes progress and decides whether to reschedule;
* the stateless worker (`src/index.ts` with `state.ts` / `dispatcher.ts`):
  `POST /process` writes a job record to KV and drives `processJob` /
  `processEntity` inline, with `pollSubAgentStatus` looping until a terminal
  answer or a timeout.

JavaScript objects keyed by entity id are modelled as insertion-ordered
association lists with unique keys (`jsGet` / `jsSet` / `jsUpdate`).
Timestamps are naturals; the network is an oracle giving, per entity id, the
outcome of one dispatch call, and per sub-job id the outcome of one poll.
-/

namespace Orchestrator

/-- Per-entity lifecycle status (`types.ts` `EntityStatus.status`). -/
inductive EStatus
  | pending
  | dispatched
  | polling
  | done
  | error
deriving DecidableEq

/-- Job-level status (`types.ts` `JobState.status`). -/
inductive JStatus
  | pending
  | running
  | done
  | error
deriving DecidableEq

/-- Per-entity tracking record (`EntityStatus` in `orchestrator-job.ts`,
extending `BaseWorkItemState`). The worker-side payload is opaque, so
`result` is an opaque string. -/
structure EntityStatus where
  status : EStatus := .pending
  sub_job_id : Option String := none
  poll_start_time : Option Nat := none
  attempts : Nat := 0
  started_at : Option Nat := none
  completed_at : Option Nat := none
  error : Option String := none
  result : Option String := none
deriving DecidableEq

/-- Aggregate counts (`types.ts` `JobProgress`). -/
structure JobProgress where
  total : Nat
  pending : Nat
  dispatched : Nat
  done : Nat
  error : Nat
deriving DecidableEq

/-- Resolved runtime configuration (`JobState.config`). -/
structure Config where
  max_retries : Nat
  concurrency : Nat
  poll_interval_ms : Nat
  poll_timeout_ms : Nat
deriving DecidableEq

/-- Final job result (`JobState.result`). -/
structure JobResult where
  total : Nat
  succeeded : Nat
  failed : Nat
  message : String
deriving DecidableEq

/-- Job-level error (`JobState.error`). -/
structure JobError where
  code : String
  message : String
deriving DecidableEq

/-- Defaults `DEFAULT_CONFIG` from `config.ts`. -/
def DEFAULT_CONFIG : Config :=
  { max_retries := 3
    concurrency := 5
    poll_interval_ms := 2000
    poll_timeout_ms := 300000 }

/-- Lookup in a JS object (`obj[k]`). -/
def jsGet {α : Type} : List (String × α) → String → Option α
  | [], _ => none
  | (k', v) :: es, k => if k' = k then some v else jsGet es k

/-- Insert-or-overwrite in a JS object (`obj[k] = v`): an existing key keeps
its position, a new key is appended. -/
def jsSet {α : Type} : List (String × α) → String → α → List (String × α)
  | [], k, v => [(k, v)]
  | (k', v') :: es, k, v =>
      if k' = k then (k, v) :: es else (k', v') :: jsSet es k v

/-- In-place mutation of the value at key `k` (`obj[k].field = ...`).
Keys built by `jsSet` are unique, so mapping over all entries with a
matching key agrees with mutating the single entry. -/
def jsUpdate {α : Type} (es : List (String × α)) (k : String) (f : α → α) :
    List (String × α) :=
  es.map fun p => if p.1 = k then (p.1, f p.2) else p

/-- The key list of a JS object. -/
def keysOf {α : Type} (es : List (String × α)) : List String :=
  es.map Prod.fst

/-- JS objects never hold a key twice. -/
def nodupKeys {α : Type} (es : List (String × α)) : Prop :=
  (keysOf es).Nodup

instance {α : Type} (es : List (String × α)) : Decidable (nodupKeys es) :=
  List.nodupDecidable _

/-- The persisted job record (`types.ts` `JobState` /
`OrchestratorJobState`). -/
structure JobState where
  job_id : String
  status : JStatus
  target : String
  job_collection : String
  expires_at : Nat
  entities : List (String × EntityStatus)
  progress : JobProgress
  config : Config
  started_at : Nat
  completed_at : Option Nat := none
  result : Option JobResult := none
  error : Option JobError := none
deriving DecidableEq

/-- Progress recomputation as written in `state.ts` (`updateProgress`):
filter counts over the entity map, with `polling` folded into the
`dispatched` bucket. -/
def computeProgress (es : List (String × EntityStatus)) : JobProgress :=
  { total := es.length
    pending := (es.filter fun p => p.2.status = .pending).length
    dispatched :=
      (es.filter fun p => p.2.status = .dispatched ∨ p.2.status = .polling).length
    done := (es.filter fun p => p.2.status = .done).length
    error := (es.filter fun p => p.2.status = .error).length }

/-- One step of the counting loop in `OrchestratorJob.updateProgress`
(`orchestrator-job.ts`): the `switch` over one entity's status. -/
def tallyEntity (acc : JobProgress) (e : EntityStatus) : JobProgress :=
  match e.status with
  | .pending => { acc with pending := acc.pending + 1 }
  | .dispatched => { acc with dispatched := acc.dispatched + 1 }
  | .polling => { acc with dispatched := acc.dispatched + 1 }
  | .done => { acc with done := acc.done + 1 }
  | .error => { acc with error := acc.error + 1 }

/-- Progress recomputation as written in `OrchestratorJob.updateProgress`:
a counter loop over `Object.values(state.entities)` followed by
`total = Object.keys(state.entities).length`. -/
def computeProgressDO (es : List (String × EntityStatus)) : JobProgress :=
  let counted := es.foldl (fun acc p => tallyEntity acc p.2)
    { total := 0, pending := 0, dispatched := 0, done := 0, error := 0 }
  { counted with total := es.length }

/-- Step `this.updateProgress(state)`: replace `progress` by the recomputation. -/
def updateProgress (s : JobState) : JobState :=
  { s with progress := computeProgress s.entities }

/-- Outcome of one `dispatchToAgent` call for a given entity
(`dispatcher.ts` `DispatchResult`): either accepted with a sub-job id, or
rejected/failed with a reason. -/
inductive DispatchOutcome
  | success (sub_job_id : String)
  | failure (err : String)
deriving DecidableEq

/-- Outcome of one `pollAgentStatus` call for a given sub-job id: the
sub-agent is still running, finished with a result, or finished with an
error. -/
inductive PollOutcome
  | running
  | done (result : String)
  | error (msg : String)
deriving DecidableEq

/-- One iteration of the `for` loop of `OrchestratorJob.dispatchEntities`:
increment `attempts`, stamp `started_at`, then either record the accepted
dispatch (`status = dispatched`, `sub_job_id`, `poll_start_time`, clear
`error`) or record the failure (`error`; terminal once
`attempts >= max_retries`, otherwise left `pending` for the next alarm). -/
def dispatchStep (cfg : Config) (d : String → DispatchOutcome) (now : Nat)
    (entityId : String) (e0 : EntityStatus) : EntityStatus :=
  let e1 := { e0 with attempts := e0.attempts + 1, started_at := some now }
  match d entityId with
  | .success subId =>
      { e1 with
        status := .dispatched
        sub_job_id := some subId
        poll_start_time := some now
        error := none }
  | .failure err =>
      if cfg.max_retries ≤ e1.attempts then
        { e1 with status := .error, error := some err, completed_at := some now }
      else
        { e1 with status := .pending, error := some err }

/-- The loop of `OrchestratorJob.dispatchEntities` over the selected ids. -/
def dispatchEntities (cfg : Config) (d : String → DispatchOutcome) (now : Nat)
    (es : List (String × EntityStatus)) (ids : List String) :
    List (String × EntityStatus) :=
  ids.foldl (fun es id => jsUpdate es id (dispatchStep cfg d now id)) es

/-- One iteration of the `for` loop of `OrchestratorJob.pollEntities`: skip
entities without a `sub_job_id`; treat an exceeded poll deadline as an
attempt failure (terminal once `attempts >= max_retries`, otherwise reset to
`pending` clearing `sub_job_id` and `poll_start_time`); otherwise poll the
sub-agent and apply the reported outcome the same way. -/
def pollStep (cfg : Config) (po : String → PollOutcome) (now : Nat)
    (e : EntityStatus) : EntityStatus :=
  match e.sub_job_id with
  | none => e
  | some subId =>
    let pollElapsed := now - e.poll_start_time.getD 0
    if cfg.poll_timeout_ms < pollElapsed then
      if cfg.max_retries ≤ e.attempts then
        { e with
          status := .error
          error := some "Poll timeout exceeded"
          completed_at := some now }
      else
        { e with
          status := .pending
          error := some "Poll timeout exceeded"
          sub_job_id := none
          poll_start_time := none }
    else
      match po subId with
      | .running => e
      | .done r =>
          { e with
            status := .done
            result := some r
            completed_at := some now
            error := none }
      | .error msg =>
          if cfg.max_retries ≤ e.attempts then
            { e with
              status := .error
              error := some msg
              completed_at := some now }
          else
            { e with
              status := .pending
              error := some msg
              sub_job_id := none
              poll_start_time := none }

/-- The loop of `OrchestratorJob.pollEntities` over the in-flight ids. -/
def pollEntities (cfg : Config) (po : String → PollOutcome) (now : Nat)
    (es : List (String × EntityStatus)) (ids : List String) :
    List (String × EntityStatus) :=
  ids.foldl (fun es id => jsUpdate es id (pollStep cfg po now)) es

/-- Ids of the entities currently `pending` (insertion order). -/
def pendingIds (es : List (String × EntityStatus)) : List String :=
  (es.filter fun p => p.2.status = .pending).map Prod.fst

/-- Ids of the entities currently in flight, i.e. `dispatched` or `polling`
(insertion order). -/
def inFlightIds (es : List (String × EntityStatus)) : List String :=
  (es.filter fun p => p.2.status = .dispatched ∨ p.2.status = .polling).map
    Prod.fst

/-- Number of in-flight entities. -/
def countInFlight (es : List (String × EntityStatus)) : Nat :=
  (es.filter fun p => p.2.status = .dispatched ∨ p.2.status = .polling).length

/-- Modelled from the spec: `BaseAgentDO.isExpired` lives in the external
`agent-core` package; §4.5 step 3 specifies the check as `now > expires_at`. -/
def isExpired (s : JobState) (now : Nat) : Bool :=
  s.expires_at < now

/-- Modelled from the spec: `BaseAgentDO.failJob` lives in the external
`agent-core` package; the spec's force-fail sets `status = error` with the
given error code and stamps completion, leaving per-entity state untouched. -/
def failJob (s : JobState) (code msg : String) (now : Nat) : JobState :=
  { s with
    status := .error
    error := some { code := code, message := msg }
    completed_at := some now }

/-- Finalizer `OrchestratorJob.finalize`: recompute progress, read off
`succeeded`/`failed`/`total`, set the terminal status (`error` iff every
entity failed), stamp `completed_at`, build the result summary, and attach
the job-level `ALL_FAILED` error when everything failed. Returns no further
alarm. -/
def finalize (s0 : JobState) (now : Nat) : JobState :=
  let s := updateProgress s0
  let succeeded := s.progress.done
  let failed := s.progress.error
  let total := s.progress.total
  let status : JStatus := if failed = total then .error else .done
  let s :=
    { s with
      status := status
      completed_at := some now
      result := some
        { total := total
          succeeded := succeeded
          failed := failed
          message :=
            if status = .done then
              "Successfully processed " ++ toString succeeded ++ "/" ++
                toString total ++ " entities"
            else "All " ++ toString total ++ " entities failed" } }
  if status = .error then
    { s with error := some { code := "ALL_FAILED", message := "All entities failed" } }
  else s

/-- The entity-map transformation of one non-expired, non-final alarm,
inlined in `OrchestratorJob.processAlarm`: compute the pending and in-flight
id lists once, dispatch up to `concurrency - in_flight` pending entities
(insertion order), then poll the previously in-flight entities. -/
def tickEntities (cfg : Config) (d : String → DispatchOutcome)
    (po : String → PollOutcome) (now : Nat)
    (es : List (String × EntityStatus)) : List (String × EntityStatus) :=
  let pend := pendingIds es
  let infl := inFlightIds es
  let availableSlots := cfg.concurrency - infl.length
  let es1 :=
    if 0 < availableSlots ∧ 0 < pend.length then
      dispatchEntities cfg d now es (pend.take availableSlots)
    else es
  if 0 < infl.length then pollEntities cfg po now es1 infl else es1

/-- Result of one alarm: the state persisted at the end of the tick, and
whether another alarm was scheduled. -/
structure TickResult where
  state : JobState
  reschedule : Bool
deriving DecidableEq

/-- The first step of `processAlarm`: `if (state.status === 'pending')
state.status = 'running'`. -/
def promoteRunning (s : JobState) : JobState :=
  if s.status = .pending then { s with status := .running } else s

/-- Tick `OrchestratorJob.processAlarm`: promote `pending` to `running`; check
expiry before any dispatch/poll work (force-fail and stop on expiry);
finalize and stop when no entity is pending or in flight; otherwise run the
scheduler, dispatch and poll, recompute progress, persist, and schedule the
next alarm. -/
def processAlarm (s0 : JobState) (now : Nat) (d : String → DispatchOutcome)
    (po : String → PollOutcome) : TickResult :=
  let s := promoteRunning s0
  if isExpired s now then
    { state := failJob s "EXPIRED" "Job expired before completion" now
      reschedule := false }
  else
    if (pendingIds s.entities).length = 0 ∧
        (inFlightIds s.entities).length = 0 then
      { state := finalize s now, reschedule := false }
    else
      { state :=
          updateProgress
            { s with entities := tickEntities s.config d po now s.entities }
        reschedule := true }

/-- The intake request after transport, signature and required-field
validation (`StartRequest` / `JobRequest`): the fields the job record is
built from. -/
structure StartRequest where
  job_id : String
  target : String
  job_collection : String
  expires_at : Nat
  entity_ids : Option (List String)
  options_max_retries : Option Nat
  options_concurrency : Option Nat
deriving DecidableEq

/-- Intake response (`JobResponse`). -/
inductive JobResponse
  | accepted (job_id : String)
  | rejected (err : String)
deriving DecidableEq

/-- The entity ids a job is created over: the explicit `input.entity_ids`
when present and non-empty, otherwise the discovery result. -/
def effectiveIds (req : StartRequest) (discovered : List String) :
    List String :=
  match req.entity_ids with
  | some ids => if ids.isEmpty then discovered else ids
  | none => discovered

/-- Resolve `config` from `input.options` merged with `DEFAULT_CONFIG`
(`options.max_retries ?? DEFAULT_CONFIG.max_retries`, etc.; the poll timing
always comes from the defaults). -/
def resolveConfig (req : StartRequest) : Config :=
  { max_retries := req.options_max_retries.getD DEFAULT_CONFIG.max_retries
    concurrency := req.options_concurrency.getD DEFAULT_CONFIG.concurrency
    poll_interval_ms := DEFAULT_CONFIG.poll_interval_ms
    poll_timeout_ms := DEFAULT_CONFIG.poll_timeout_ms }

/-- Build the entity map: `entities[entityId] = { status: 'pending',
attempts: 0 }` for each id, in order. -/
def initEntities (ids : List String) : List (String × EntityStatus) :=
  ids.foldl (fun es id => jsSet es id { status := .pending, attempts := 0 }) []

/-- The fresh job record both intake paths construct: `status = pending`,
all entities `pending` with `attempts = 0`, and progress seeded as
`total = pending = entityIds.length`. -/
def newJobState (req : StartRequest) (entityIds : List String) (now : Nat) :
    JobState :=
  { job_id := req.job_id
    status := .pending
    target := req.target
    job_collection := req.job_collection
    expires_at := req.expires_at
    entities := initEntities entityIds
    progress :=
      { total := entityIds.length
        pending := entityIds.length
        dispatched := 0
        done := 0
        error := 0 }
    config := resolveConfig req
    started_at := now }

/-- Result of `handleStart` on one Durable Object: the job record stored
after the call, the response, and whether a first alarm was scheduled. -/
structure StartResult where
  state : Option JobState
  response : JobResponse
  alarmScheduled : Bool
deriving DecidableEq

/-- Intake `OrchestratorJob.handleStart`: if this job's record already exists,
return `accepted` with the request's job id without touching anything;
otherwise resolve the entity ids (explicit list or discovery), reject when
none were found, and else create, persist and kick off the fresh job. -/
def handleStart (existing : Option JobState) (req : StartRequest)
    (discovered : List String) (now : Nat) : StartResult :=
  match existing with
  | some st =>
      { state := some st
        response := .accepted req.job_id
        alarmScheduled := false }
  | none =>
    let entityIds := effectiveIds req discovered
    if entityIds.isEmpty then
      { state := none
        response := .rejected "No entities found in collection"
        alarmScheduled := false }
    else
      { state := some (newJobState req entityIds now)
        response := .accepted req.job_id
        alarmScheduled := true }

/-- The worker variant's intake (`POST /process` in `src/index.ts`), after
signature and field validation: it builds a fresh job record and writes it
to KV under `job:{job_id}` unconditionally — there is no existing-job
check. -/
def intakeWorker (store : List (String × JobState)) (req : StartRequest)
    (discovered : List String) (now : Nat) :
    List (String × JobState) × JobResponse :=
  let entityIds := effectiveIds req discovered
  if entityIds.isEmpty then
    (store, .rejected "No entities found in collection")
  else
    (jsSet store ("job:" ++ req.job_id) (newJobState req entityIds now),
      .accepted req.job_id)

/-- What one `fetch` of the sub-agent status endpoint yields, as seen by
`pollSubAgentStatus`: the fetch threw (network error) or the response was
not ok; or a body whose `status` is still `running`/`pending`; or a
terminal `done`/`error` body. -/
inductive ProbeOutcome
  | netError
  | running
  | done (result : String)
  | error (msg : String)
deriving DecidableEq

/-- Status component of `PollResult` in `dispatcher.ts`. -/
inductive PStatus
  | running
  | done
  | error
deriving DecidableEq

/-- Return type `PollResult` in `dispatcher.ts`. -/
structure PollResult where
  done : Bool
  status : PStatus
  result : Option String := none
  error : Option String := none
deriving DecidableEq

/-- The value `pollSubAgentStatus` returns when its deadline elapses. -/
def pollTimeoutResult : PollResult :=
  { done := false, status := .error, error := some "Polling timeout exceeded" }

/-- The `while (Date.now() - startTime < timeoutMs)` loop of
`pollSubAgentStatus`, with the k-th fetch modelled by `probe k`, each fetch
instantaneous and each `sleep(pollIntervalMs)` advancing time by exactly
`pollIntervalMs`, so the k-th iteration starts at elapsed time
`k * pollIntervalMs`. A network error or a non-terminal body just sleeps
and continues; the fuel bounds the iteration count. -/
def pollLoop (probe : Nat → ProbeOutcome) (intervalMs timeoutMs : Nat) :
    Nat → Nat → PollResult
  | _, 0 => pollTimeoutResult
  | k, fuel + 1 =>
    if k * intervalMs < timeoutMs then
      match probe k with
      | .done r => { done := true, status := .done, result := some r }
      | .error m => { done := true, status := .error, error := some m }
      | .netError => pollLoop probe intervalMs timeoutMs (k + 1) fuel
      | .running => pollLoop probe intervalMs timeoutMs (k + 1) fuel
    else pollTimeoutResult

/-- Poller `pollSubAgentStatus` from `dispatcher.ts`: run the polling loop from
elapsed time zero. With a positive interval, `timeoutMs + 1` iterations of
fuel always outlast the deadline. -/
def pollSubAgentStatus (probe : Nat → ProbeOutcome)
    (pollIntervalMs timeoutMs : Nat) : PollResult :=
  pollLoop probe pollIntervalMs timeoutMs 0 (timeoutMs + 1)

/-- The per-entity attempt invariant: `attempts` never exceeds
`max_retries`, and an entity that is still `pending` (hence redispatchable)
has a strictly unspent budget. -/
def EntInv (mr : Nat) (e : EntityStatus) : Prop :=
  e.attempts ≤ mr ∧ (e.status = .pending → e.attempts < mr)

/-- The aggregate-count part of the spec invariant, as a predicate on a job
record: the four buckets sum to `total`, and `total` is the number of
entries in the entity map. -/
def progressConsistent (s : JobState) : Prop :=
  s.progress.pending + s.progress.dispatched + s.progress.done +
      s.progress.error = s.progress.total ∧
  s.progress.total = s.entities.length

instance (s : JobState) : Decidable (progressConsistent s) := instDecidableAnd

instance (mr : Nat) (e : EntityStatus) : Decidable (EntInv mr e) :=
  instDecidableAnd

/-- The per-job attempt invariant over the whole entity map. -/
def attemptsInv (s : JobState) : Prop :=
  ∀ p ∈ s.entities, EntInv s.config.max_retries p.2

instance (s : JobState) : Decidable (attemptsInv s) :=
  List.decidableBAll _ _

/-- The body of `GET /status/{job_id}` (`getStatusResponse` in
`orchestrator-job.ts`): the job-level fields an observer can see. -/
structure StatusResponse where
  job_id : String
  status : JStatus
  progress : JobProgress
  result : Option JobResult
  error : Option JobError
  started_at : Nat
  completed_at : Option Nat
deriving DecidableEq

/-- Response body builder `OrchestratorJob.getStatusResponse`. -/
def getStatusResponse (s : JobState) : StatusResponse :=
  { job_id := s.job_id
    status := s.status
    progress := s.progress
    result := s.result
    error := s.error
    started_at := s.started_at
    completed_at := s.completed_at }

/-- Relabel every `polling` entity as `dispatched`, keeping everything else:
the observational collapse performed by the progress recomputation. -/
def relabelPolling (es : List (String × EntityStatus)) :
    List (String × EntityStatus) :=
  es.map fun p =>
    if p.2.status = .polling then (p.1, { p.2 with status := .dispatched })
    else p

/-- A well-formed intake request with two explicit entity ids. -/
def sampleReq : StartRequest :=
  { job_id := "job-1"
    target := "col-1"
    job_collection := "log-1"
    expires_at := 1000
    entity_ids := some ["a", "b"]
    options_max_retries := none
    options_concurrency := none }

/-- An intake request that sets `options.max_retries = 0`. -/
def zeroRetryReq : StartRequest :=
  { job_id := "job-0"
    target := "col-1"
    job_collection := "log-1"
    expires_at := 1000
    entity_ids := some ["e"]
    options_max_retries := some 0
    options_concurrency := none }

/-- A dispatch oracle on which every invocation is rejected. -/
def dFail : String → DispatchOutcome := fun _ => .failure "invoke rejected"

/-- A dispatch oracle on which every invocation is accepted. -/
def dOk : String → DispatchOutcome := fun id => .success ("sub-" ++ id)

/-- A poll oracle on which every sub-job is still running. -/
def poRun : String → PollOutcome := fun _ => .running

/-- A mid-flight job record: one entity dispatched, one still pending. -/
def sampleState : JobState :=
  { job_id := "job-1"
    status := .running
    target := "col-1"
    job_collection := "log-1"
    expires_at := 1000
    entities :=
      [("a", { status := .dispatched, sub_job_id := some "sub-a",
               poll_start_time := some 0, attempts := 1 }),
       ("b", { status := .pending, attempts := 0 })]
    progress := { total := 2, pending := 1, dispatched := 1, done := 0,
                  error := 0 }
    config := DEFAULT_CONFIG
    started_at := 0 }

/-- A job record whose only entity has been polling since time 0. -/
def pollSt : JobState :=
  { job_id := "job-2"
    status := .running
    target := "col-1"
    job_collection := "log-1"
    expires_at := 1000000
    entities :=
      [("a", { status := .dispatched, sub_job_id := some "sub-a",
               poll_start_time := some 0, attempts := 1 })]
    progress := { total := 1, pending := 0, dispatched := 1, done := 0,
                  error := 0 }
    config := DEFAULT_CONFIG
    started_at := 0 }

/-- A job record with every entity terminal: one `done`, one `error`. -/
def doneSt : JobState :=
  { job_id := "job-3"
    status := .running
    target := "col-1"
    job_collection := "log-1"
    expires_at := 1000
    entities :=
      [("a", { status := .done, attempts := 1, result := some "ok" }),
       ("b", { status := .error, attempts := 3, error := some "boom" })]
    progress := { total := 2, pending := 0, dispatched := 0, done := 1,
                  error := 1 }
    config := DEFAULT_CONFIG
    started_at := 0 }

/-- Probe schedule: first check still running, every later one terminal. -/
def probeA : Nat → ProbeOutcome :=
  fun k => if k = 0 then .running else .done "r"

/-- Probe schedule: every check still running. -/
def probeB : Nat → ProbeOutcome := fun _ => .running

-- ===========================================================================
-- Theorems
-- ===========================================================================

theorem tallyEntity_total (acc : JobProgress) (e : EntityStatus) :
    (tallyEntity acc e).total = acc.total := by
  unfold tallyEntity
  cases e.status <;> rfl

theorem computeProgressDO_eq_computeProgress
    (es : List (String × EntityStatus)) :
    computeProgressDO es = computeProgress es := by
  suffices h : ∀ acc : JobProgress,
      es.foldl (fun acc p => tallyEntity acc p.2) acc =
        { total := acc.total
          pending := acc.pending + (computeProgress es).pending
          dispatched := acc.dispatched + (computeProgress es).dispatched
          done := acc.done + (computeProgress es).done
          error := acc.error + (computeProgress es).error } by
    unfold computeProgressDO
    rw [h]
    simp [computeProgress]
  induction es with
  | nil => intro acc; simp [computeProgress]
  | cons p es ih =>
    intro acc
    simp only [List.foldl_cons, ih]
    rcases p with ⟨k, e⟩
    rcases e with ⟨st, sj, ps, at_, sa, ca, er, re⟩
    cases st <;>
      simp [tallyEntity, computeProgress, List.filter_cons] <;> omega

/-- Every entity lands in exactly one progress bucket, so the recomputed
counts always sum to the total, which is the size of the entity map. -/
theorem computeProgress_sum (es : List (String × EntityStatus)) :
    (computeProgress es).pending + (computeProgress es).dispatched +
        (computeProgress es).done + (computeProgress es).error =
      (computeProgress es).total ∧
    (computeProgress es).total = es.length := by
  refine ⟨?_, rfl⟩
  induction es with
  | nil => simp [computeProgress]
  | cons p es ih =>
    rcases p with ⟨k, e⟩
    rcases e with ⟨st, sj, ps, at_, sa, ca, er, re⟩
    cases st <;>
      simp [computeProgress, List.filter_cons] at ih ⊢ <;> omega

theorem keysOf_jsUpdate {α : Type} (es : List (String × α)) (k : String)
    (f : α → α) : keysOf (jsUpdate es k f) = keysOf es := by
  unfold keysOf jsUpdate
  rw [List.map_map]
  apply List.map_congr_left
  intro p _
  by_cases h : p.1 = k <;> simp [h]

theorem length_jsUpdate {α : Type} (es : List (String × α)) (k : String)
    (f : α → α) : (jsUpdate es k f).length = es.length := by
  simp [jsUpdate]

theorem nodupKeys_jsUpdate {α : Type} {es : List (String × α)} {k : String}
    {f : α → α} (h : nodupKeys es) : nodupKeys (jsUpdate es k f) := by
  unfold nodupKeys
  rw [keysOf_jsUpdate]
  exact h

theorem jsUpdate_of_not_mem {α : Type} {es : List (String × α)} {k : String}
    (f : α → α) (h : k ∉ keysOf es) : jsUpdate es k f = es := by
  induction es with
  | nil => rfl
  | cons p es ih =>
    simp only [keysOf, List.map_cons, List.mem_cons, not_or] at h
    simp only [jsUpdate, List.map_cons]
    rw [if_neg (fun hp => h.1 hp.symm)]
    have := ih (by simpa [keysOf] using h.2)
    simp only [jsUpdate] at this
    rw [this]

theorem jsGet_jsUpdate_self {α : Type} (es : List (String × α)) (k : String)
    (f : α → α) : jsGet (jsUpdate es k f) k = (jsGet es k).map f := by
  induction es with
  | nil => rfl
  | cons p es ih =>
    rcases p with ⟨k', v⟩
    simp only [jsUpdate, List.map_cons]
    by_cases h : k' = k
    · rw [if_pos (by exact h)]
      subst h
      simp [jsGet]
    · rw [if_neg (by exact h)]
      simp only [jsGet, if_neg h]
      exact ih

theorem jsGet_jsUpdate_ne {α : Type} (es : List (String × α)) {x k : String}
    (f : α → α) (h : x ≠ k) : jsGet (jsUpdate es k f) x = jsGet es x := by
  induction es with
  | nil => rfl
  | cons p es ih =>
    rcases p with ⟨k', v⟩
    simp only [jsUpdate, List.map_cons]
    by_cases hk : k' = k
    · rw [if_pos (by exact hk)]
      subst hk
      have hne : ¬ k' = x := fun hE => h hE.symm
      simp only [jsGet, if_neg hne]
      exact ih
    · rw [if_neg (by exact hk)]
      by_cases hx : k' = x
      · subst hx
        simp [jsGet]
      · simp only [jsGet, if_neg hx]
        exact ih

theorem jsGet_eq_some_of_mem {α : Type} {es : List (String × α)}
    {k : String} {v : α} (hk : nodupKeys es) (hmem : (k, v) ∈ es) :
    jsGet es k = some v := by
  induction es with
  | nil => cases hmem
  | cons p es ih =>
    rcases p with ⟨k', v'⟩
    simp only [nodupKeys, keysOf, List.map_cons, List.nodup_cons] at hk
    rcases List.mem_cons.mp hmem with h | h
    · cases h
      simp [jsGet]
    · have hne : k' ≠ k := by
        intro hE
        subst hE
        exact hk.1 (by simpa [keysOf] using List.mem_map_of_mem Prod.fst h)
      simp only [jsGet, if_neg hne]
      exact ih hk.2 h

theorem mem_of_jsGet_eq_some {α : Type} {es : List (String × α)}
    {k : String} {v : α} (h : jsGet es k = some v) : (k, v) ∈ es := by
  induction es with
  | nil => cases h
  | cons p es ih =>
    rcases p with ⟨k', v'⟩
    by_cases hk : k' = k
    · subst hk
      rw [show jsGet ((k', v') :: es) k' = some v' by simp [jsGet]] at h
      injection h with h
      subst h
      exact List.mem_cons_self _ _
    · simp only [jsGet, if_neg hk] at h
      exact List.mem_cons_of_mem _ (ih h)

theorem foldl_jsUpdate_get_of_not_mem {α : Type} (F : String → α → α)
    (ids : List String) (es : List (String × α)) {x : String}
    (h : x ∉ ids) :
    jsGet (ids.foldl (fun es id => jsUpdate es id (F id)) es) x =
      jsGet es x := by
  induction ids generalizing es with
  | nil => rfl
  | cons a ids ih =>
    simp only [List.mem_cons, not_or] at h
    simp only [List.foldl_cons]
    rw [ih _ h.2, jsGet_jsUpdate_ne _ _ h.1]

theorem foldl_jsUpdate_keys {α : Type} (F : String → α → α)
    (ids : List String) (es : List (String × α)) :
    keysOf (ids.foldl (fun es id => jsUpdate es id (F id)) es) = keysOf es := by
  induction ids generalizing es with
  | nil => rfl
  | cons a ids ih =>
    simp only [List.foldl_cons]
    rw [ih, keysOf_jsUpdate]

theorem foldl_jsUpdate_length {α : Type} (F : String → α → α)
    (ids : List String) (es : List (String × α)) :
    (ids.foldl (fun es id => jsUpdate es id (F id)) es).length = es.length := by
  have h := foldl_jsUpdate_keys F ids es
  have h1 := congrArg List.length h
  simpa [keysOf] using h1

theorem foldl_jsUpdate_get_of_mem {α : Type} (F : String → α → α)
    (ids : List String) (es : List (String × α)) {x : String}
    (hnd : ids.Nodup) (hx : x ∈ ids) :
    jsGet (ids.foldl (fun es id => jsUpdate es id (F id)) es) x =
      (jsGet es x).map (F x) := by
  induction ids generalizing es with
  | nil => cases hx
  | cons a ids ih =>
    simp only [List.nodup_cons] at hnd
    simp only [List.foldl_cons]
    rcases List.mem_cons.mp hx with h | h
    · subst h
      rw [foldl_jsUpdate_get_of_not_mem F ids _ hnd.1,
        jsGet_jsUpdate_self]
    · have hne : x ≠ a := fun hE => hnd.1 (hE ▸ h)
      rw [ih _ hnd.2 h, jsGet_jsUpdate_ne _ _ hne]

theorem jsUpdate_cons {α : Type} (k' : String) (v : α)
    (es : List (String × α)) (k : String) (f : α → α) :
    jsUpdate ((k', v) :: es) k f =
      (if k' = k then (k', f v) else (k', v)) :: jsUpdate es k f := rfl

theorem countInFlight_cons (k : String) (v : EntityStatus)
    (es : List (String × EntityStatus)) :
    countInFlight ((k, v) :: es) =
      (if v.status = .dispatched ∨ v.status = .polling then 1 else 0) +
        countInFlight es := by
  by_cases hv : v.status = .dispatched ∨ v.status = .polling
  · simp [countInFlight, List.filter_cons, hv, Nat.add_comm]
  · simp [countInFlight, List.filter_cons, hv]

theorem countInFlight_jsUpdate_le {es : List (String × EntityStatus)}
    (k : String) (F : EntityStatus → EntityStatus) (hk : nodupKeys es) :
    countInFlight (jsUpdate es k F) ≤ countInFlight es + 1 := by
  induction es with
  | nil => simp [jsUpdate, countInFlight]
  | cons p es ih =>
    rcases p with ⟨k', v⟩
    simp only [nodupKeys, keysOf, List.map_cons, List.nodup_cons] at hk
    rw [jsUpdate_cons]
    by_cases hkk : k' = k
    · rw [if_pos hkk]
      rw [jsUpdate_of_not_mem F (by simpa [keysOf, hkk] using hk.1)]
      rw [countInFlight_cons, countInFlight_cons]
      have h1 : (if (F v).status = .dispatched ∨ (F v).status = .polling
          then 1 else 0) ≤ 1 := by split <;> omega
      omega
    · rw [if_neg hkk]
      rw [countInFlight_cons, countInFlight_cons]
      have h2 := ih hk.2
      omega

theorem countInFlight_jsUpdate_of_pointwise
    {es : List (String × EntityStatus)} (k : String)
    {F : EntityStatus → EntityStatus}
    (hF : ∀ e, ((F e).status = .dispatched ∨ (F e).status = .polling) →
      (e.status = .dispatched ∨ e.status = .polling)) :
    countInFlight (jsUpdate es k F) ≤ countInFlight es := by
  induction es with
  | nil => simp [jsUpdate, countInFlight]
  | cons p es ih =>
    rcases p with ⟨k', v⟩
    rw [jsUpdate_cons]
    by_cases hkk : k' = k
    · rw [if_pos hkk, countInFlight_cons, countInFlight_cons]
      by_cases h1 : (F v).status = .dispatched ∨ (F v).status = .polling
      · rw [if_pos h1, if_pos (hF v h1)]
        omega
      · rw [if_neg h1]
        have h2 : (if v.status = .dispatched ∨ v.status = .polling
            then 1 else 0) + countInFlight es ≥ countInFlight es := by omega
        omega
    · rw [if_neg hkk, countInFlight_cons, countInFlight_cons]
      omega

theorem countInFlight_foldl_le (F : String → EntityStatus → EntityStatus)
    (ids : List String) (es : List (String × EntityStatus))
    (hk : nodupKeys es) :
    countInFlight (ids.foldl (fun es id => jsUpdate es id (F id)) es) ≤
      countInFlight es + ids.length := by
  induction ids generalizing es with
  | nil => simp
  | cons a ids ih =>
    simp only [List.foldl_cons, List.length_cons]
    have h1 := ih (jsUpdate es a (F a)) (nodupKeys_jsUpdate hk)
    have h2 := countInFlight_jsUpdate_le a (F a) hk
    omega

theorem countInFlight_foldl_mono (F : String → EntityStatus → EntityStatus)
    (hF : ∀ id e, ((F id e).status = .dispatched ∨
        (F id e).status = .polling) →
      (e.status = .dispatched ∨ e.status = .polling))
    (ids : List String) (es : List (String × EntityStatus)) :
    countInFlight (ids.foldl (fun es id => jsUpdate es id (F id)) es) ≤
      countInFlight es := by
  induction ids generalizing es with
  | nil => simp
  | cons a ids ih =>
    simp only [List.foldl_cons]
    exact le_trans (ih (jsUpdate es a (F a)))
      (countInFlight_jsUpdate_of_pointwise a (hF a))

/-- Each branch of `pollStep` either leaves the entity unchanged or gives it
status `pending`, `done` or `error`. -/
theorem pollStep_cases (cfg : Config) (po : String → PollOutcome) (now : Nat)
    (e : EntityStatus) :
    pollStep cfg po now e = e ∨
      (pollStep cfg po now e).status = .pending ∨
      (pollStep cfg po now e).status = .done ∨
      (pollStep cfg po now e).status = .error := by
  cases hs : e.sub_job_id with
  | none => left; simp [pollStep, hs]
  | some subId =>
    by_cases hc : cfg.poll_timeout_ms < now - e.poll_start_time.getD 0
    · by_cases hm : cfg.max_retries ≤ e.attempts
      · right; right; right; simp [pollStep, hs, hc, hm]
      · right; left; simp [pollStep, hs, hc, hm]
    · cases hp : po subId with
      | running => left; simp [pollStep, hs, hc, hp]
      | done r => right; right; left; simp [pollStep, hs, hc, hp]
      | error m =>
        by_cases hm : cfg.max_retries ≤ e.attempts
        · right; right; right; simp [pollStep, hs, hc, hp, hm]
        · right; left; simp [pollStep, hs, hc, hp, hm]

/-- Polling never moves an entity into flight. -/
theorem pollStep_inflight (cfg : Config) (po : String → PollOutcome)
    (now : Nat) (e : EntityStatus) :
    ((pollStep cfg po now e).status = .dispatched ∨
      (pollStep cfg po now e).status = .polling) →
    (e.status = .dispatched ∨ e.status = .polling) := by
  intro h
  rcases pollStep_cases cfg po now e with he | hx | hx | hx
  · rw [he] at h
    exact h
  all_goals rcases h with h | h <;> rw [h] at hx <;> cases hx

theorem length_inFlightIds (es : List (String × EntityStatus)) :
    (inFlightIds es).length = countInFlight es := by
  simp [inFlightIds, countInFlight]

theorem pollStep_attempts (cfg : Config) (po : String → PollOutcome)
    (now : Nat) (e : EntityStatus) :
    (pollStep cfg po now e).attempts = e.attempts := by
  cases hs : e.sub_job_id with
  | none => simp [pollStep, hs]
  | some subId =>
    by_cases hc : cfg.poll_timeout_ms < now - e.poll_start_time.getD 0
    · by_cases hm : cfg.max_retries ≤ e.attempts <;> simp [pollStep, hs, hc, hm]
    · cases hp : po subId with
      | running => simp [pollStep, hs, hc, hp]
      | done r => simp [pollStep, hs, hc, hp]
      | error m =>
        by_cases hm : cfg.max_retries ≤ e.attempts <;>
          simp [pollStep, hs, hc, hp, hm]

/-- Whenever `pollStep` sends an in-flight entity back to `pending`, it
clears `sub_job_id` and `poll_start_time`, and the retry budget was not yet
exhausted. -/
theorem pollStep_pending_reset (cfg : Config) (po : String → PollOutcome)
    (now : Nat) (e : EntityStatus)
    (he : e.status = .dispatched ∨ e.status = .polling) :
    (pollStep cfg po now e).status = .pending →
      (pollStep cfg po now e).sub_job_id = none ∧
      (pollStep cfg po now e).poll_start_time = none ∧
      e.attempts < cfg.max_retries := by
  intro h
  cases hs : e.sub_job_id with
  | none =>
    rw [show pollStep cfg po now e = e by simp [pollStep, hs]] at h
    rcases he with he | he <;> rw [he] at h <;> cases h
  | some subId =>
    by_cases hc : cfg.poll_timeout_ms < now - e.poll_start_time.getD 0
    · by_cases hm : cfg.max_retries ≤ e.attempts
      · simp [pollStep, hs, hc, hm] at h
      · simp [pollStep, hs, hc, hm]
        omega
    · cases hp : po subId with
      | running =>
        rw [show pollStep cfg po now e = e by simp [pollStep, hs, hc, hp]] at h
        rcases he with he | he <;> rw [he] at h <;> cases h
      | done r => simp [pollStep, hs, hc, hp] at h
      | error m =>
        by_cases hm : cfg.max_retries ≤ e.attempts
        · simp [pollStep, hs, hc, hp, hm] at h
        · simp [pollStep, hs, hc, hp, hm]
          omega

theorem pollStep_entInv (cfg : Config) (po : String → PollOutcome)
    (now : Nat) (e : EntityStatus) (h : EntInv cfg.max_retries e) :
    EntInv cfg.max_retries (pollStep cfg po now e) := by
  obtain ⟨h1, h2⟩ := h
  cases hs : e.sub_job_id with
  | none =>
    rw [show pollStep cfg po now e = e by simp [pollStep, hs]]
    exact ⟨h1, h2⟩
  | some subId =>
    by_cases hc : cfg.poll_timeout_ms < now - e.poll_start_time.getD 0
    · by_cases hm : cfg.max_retries ≤ e.attempts <;>
        · constructor <;> simp [pollStep, hs, hc, hm] <;> omega
    · cases hp : po subId with
      | running =>
        rw [show pollStep cfg po now e = e by simp [pollStep, hs, hc, hp]]
        exact ⟨h1, h2⟩
      | done r =>
        constructor <;> simp [pollStep, hs, hc, hp]
        exact h1
      | error m =>
        by_cases hm : cfg.max_retries ≤ e.attempts <;>
          · constructor <;> simp [pollStep, hs, hc, hp, hm] <;> omega

theorem dispatchStep_attempts (cfg : Config) (d : String → DispatchOutcome)
    (now : Nat) (id : String) (e : EntityStatus) :
    (dispatchStep cfg d now id e).attempts = e.attempts + 1 := by
  cases hd : d id with
  | success subId => simp [dispatchStep, hd]
  | failure err =>
    by_cases hm : cfg.max_retries ≤ e.attempts + 1
    · simp [dispatchStep, hd, hm]
    · simp [dispatchStep, hd, hm]

theorem dispatchStep_entInv (cfg : Config) (d : String → DispatchOutcome)
    (now : Nat) (id : String) (e : EntityStatus)
    (h : e.attempts < cfg.max_retries) :
    EntInv cfg.max_retries (dispatchStep cfg d now id e) := by
  cases hd : d id with
  | success subId =>
    constructor
    · simp [dispatchStep, hd]
      omega
    · simp [dispatchStep, hd]
  | failure err =>
    by_cases hm : cfg.max_retries ≤ e.attempts + 1
    · constructor
      · simp [dispatchStep, hd, hm]
        omega
      · simp [dispatchStep, hd, hm]
    · constructor
      · simp [dispatchStep, hd, hm]
        omega
      · simp [dispatchStep, hd, hm]
        omega

theorem of_mem_filter_ids {α : Type} {es : List (String × α)}
    {f : String × α → Bool} {x : String} {e : α} (hk : nodupKeys es)
    (hget : jsGet es x = some e)
    (hx : x ∈ (es.filter f).map Prod.fst) : f (x, e) = true := by
  rcases List.mem_map.mp hx with ⟨q, hq, hfst⟩
  have hqmem := (List.mem_filter.mp hq).1
  have hf := (List.mem_filter.mp hq).2
  rcases q with ⟨k, v⟩
  have hkx : k = x := hfst
  subst hkx
  have hv : jsGet es k = some v := jsGet_eq_some_of_mem hk hqmem
  rw [hget] at hv
  injection hv with hv
  rw [hv]
  exact hf

theorem mem_filter_ids_of_get {α : Type} {es : List (String × α)}
    {f : String × α → Bool} {x : String} {e : α}
    (hget : jsGet es x = some e) (hf : f (x, e) = true) :
    x ∈ (es.filter f).map Prod.fst := by
  have hmem := mem_of_jsGet_eq_some hget
  exact List.mem_map.mpr ⟨(x, e), List.mem_filter.mpr ⟨hmem, hf⟩, rfl⟩

theorem nodup_filter_ids {α : Type} {es : List (String × α)}
    (f : String × α → Bool) (hk : nodupKeys es) :
    ((es.filter f).map Prod.fst).Nodup := by
  have hsub : List.Sublist ((es.filter f).map Prod.fst) (es.map Prod.fst) :=
    (List.filter_sublist es).map Prod.fst
  exact List.Nodup.sublist hsub hk

theorem forall_mem_jsUpdate {α : Type} {P : String × α → Prop}
    {es : List (String × α)} {k : String} {f : α → α}
    (h : ∀ p ∈ es, P p) (hchange : ∀ p ∈ es, p.1 = k → P (p.1, f p.2)) :
    ∀ p ∈ jsUpdate es k f, P p := by
  intro p hp
  rcases List.mem_map.mp hp with ⟨q, hq, rfl⟩
  by_cases hqk : q.1 = k
  · rw [if_pos hqk]
    exact hchange q hq hqk
  · rw [if_neg hqk]
    exact h q hq

theorem pollEntities_entInv (cfg : Config) (po : String → PollOutcome)
    (now : Nat) (es : List (String × EntityStatus)) (ids : List String)
    (hinv : ∀ p ∈ es, EntInv cfg.max_retries p.2) :
    ∀ p ∈ pollEntities cfg po now es ids, EntInv cfg.max_retries p.2 := by
  unfold pollEntities
  induction ids generalizing es with
  | nil => exact hinv
  | cons a ids ih =>
    simp only [List.foldl_cons]
    refine ih _ (forall_mem_jsUpdate hinv ?_)
    intro p hp _
    exact pollStep_entInv cfg po now p.2 (hinv p hp)

theorem dispatchEntities_entInv (cfg : Config) (d : String → DispatchOutcome)
    (now : Nat) (es : List (String × EntityStatus)) (ids : List String)
    (hk : nodupKeys es) (hnd : ids.Nodup)
    (hpend : ∀ x ∈ ids, ∃ e, jsGet es x = some e ∧ e.status = .pending)
    (hinv : ∀ p ∈ es, EntInv cfg.max_retries p.2) :
    ∀ p ∈ dispatchEntities cfg d now es ids, EntInv cfg.max_retries p.2 := by
  unfold dispatchEntities
  induction ids generalizing es with
  | nil => exact hinv
  | cons a ids ih =>
    simp only [List.nodup_cons] at hnd
    simp only [List.foldl_cons]
    obtain ⟨ea, hga, hpa⟩ := hpend a (List.mem_cons_self a ids)
    have hinv' : ∀ p ∈ jsUpdate es a (dispatchStep cfg d now a),
        EntInv cfg.max_retries p.2 := by
      refine forall_mem_jsUpdate hinv ?_
      intro p hp hpk
      have hmem : (a, p.2) ∈ es := by
        rcases p with ⟨k, v⟩
        have hka : k = a := hpk
        subst hka
        exact hp
      have hgp : jsGet es a = some p.2 := jsGet_eq_some_of_mem hk hmem
      rw [hga] at hgp
      injection hgp with hgp
      have hlt : p.2.attempts < cfg.max_retries := by
        rw [hgp] at hpa
        exact ((hinv p hp).2 hpa)
      exact dispatchStep_entInv cfg d now a p.2 hlt
    refine ih _ (nodupKeys_jsUpdate hk) hnd.2 ?_ hinv'
    intro x hx
    obtain ⟨e, hge, hpe⟩ := hpend x (List.mem_cons_of_mem a hx)
    have hxa : x ≠ a := fun hE => hnd.1 (hE ▸ hx)
    exact ⟨e, by rw [jsGet_jsUpdate_ne _ _ hxa]; exact hge, hpe⟩

theorem foldl_jsUpdate_attempts_mono
    (F : String → EntityStatus → EntityStatus)
    (hF : ∀ id e, e.attempts ≤ (F id e).attempts) (ids : List String)
    (es : List (String × EntityStatus)) {x : String} {e : EntityStatus}
    (hget : jsGet es x = some e) :
    ∃ e', jsGet (ids.foldl (fun es id => jsUpdate es id (F id)) es) x =
        some e' ∧ e.attempts ≤ e'.attempts := by
  induction ids generalizing es e with
  | nil => exact ⟨e, hget, le_refl _⟩
  | cons a ids ih =>
    simp only [List.foldl_cons]
    by_cases ha : x = a
    · subst ha
      have : jsGet (jsUpdate es x (F x)) x = some (F x e) := by
        rw [jsGet_jsUpdate_self, hget]
        rfl
      obtain ⟨e', hg, hagain⟩ := ih _ this
      exact ⟨e', hg, le_trans (hF x e) hagain⟩
    · have : jsGet (jsUpdate es a (F a)) x = some e := by
        rw [jsGet_jsUpdate_ne _ _ ha]
        exact hget
      exact ih _ this

theorem exists_get_of_mem_filter_ids {α : Type} {es : List (String × α)}
    {f : String × α → Bool} {x : String} (hk : nodupKeys es)
    (hx : x ∈ (es.filter f).map Prod.fst) :
    ∃ e, jsGet es x = some e ∧ f (x, e) = true := by
  rcases List.mem_map.mp hx with ⟨q, hq, hfst⟩
  rcases q with ⟨k, v⟩
  have hkx : k = x := hfst
  subst hkx
  exact ⟨v, jsGet_eq_some_of_mem hk (List.mem_filter.mp hq).1,
    (List.mem_filter.mp hq).2⟩

theorem keysOf_dispatchEntities (cfg : Config) (d : String → DispatchOutcome)
    (now : Nat) (es : List (String × EntityStatus)) (ids : List String) :
    keysOf (dispatchEntities cfg d now es ids) = keysOf es := by
  unfold dispatchEntities
  exact foldl_jsUpdate_keys _ ids es

theorem keysOf_pollEntities (cfg : Config) (po : String → PollOutcome)
    (now : Nat) (es : List (String × EntityStatus)) (ids : List String) :
    keysOf (pollEntities cfg po now es ids) = keysOf es := by
  unfold pollEntities
  exact foldl_jsUpdate_keys _ ids es

theorem jsGet_dispatchEntities_not_mem (cfg : Config)
    (d : String → DispatchOutcome) (now : Nat)
    (es : List (String × EntityStatus)) (ids : List String) {x : String}
    (h : x ∉ ids) :
    jsGet (dispatchEntities cfg d now es ids) x = jsGet es x := by
  unfold dispatchEntities
  exact foldl_jsUpdate_get_of_not_mem _ ids es h

theorem jsGet_pollEntities_not_mem (cfg : Config) (po : String → PollOutcome)
    (now : Nat) (es : List (String × EntityStatus)) (ids : List String)
    {x : String} (h : x ∉ ids) :
    jsGet (pollEntities cfg po now es ids) x = jsGet es x := by
  unfold pollEntities
  exact foldl_jsUpdate_get_of_not_mem _ ids es h

theorem jsGet_pollEntities_mem (cfg : Config) (po : String → PollOutcome)
    (now : Nat) (es : List (String × EntityStatus)) (ids : List String)
    {x : String} (hnd : ids.Nodup) (hx : x ∈ ids) :
    jsGet (pollEntities cfg po now es ids) x =
      (jsGet es x).map (pollStep cfg po now) := by
  unfold pollEntities
  exact foldl_jsUpdate_get_of_mem _ ids es hnd hx

theorem countInFlight_dispatchEntities_le (cfg : Config)
    (d : String → DispatchOutcome) (now : Nat)
    (es : List (String × EntityStatus)) (ids : List String)
    (hk : nodupKeys es) :
    countInFlight (dispatchEntities cfg d now es ids) ≤
      countInFlight es + ids.length := by
  unfold dispatchEntities
  exact countInFlight_foldl_le _ ids es hk

theorem countInFlight_pollEntities_le (cfg : Config)
    (po : String → PollOutcome) (now : Nat)
    (es : List (String × EntityStatus)) (ids : List String) :
    countInFlight (pollEntities cfg po now es ids) ≤ countInFlight es := by
  unfold pollEntities
  exact countInFlight_foldl_mono _
    (fun _ e0 => pollStep_inflight cfg po now e0) ids es

theorem jsGet_dispatchEntities_attempts_mono (cfg : Config)
    (d : String → DispatchOutcome) (now : Nat)
    (es : List (String × EntityStatus)) (ids : List String) {x : String}
    {e : EntityStatus} (hget : jsGet es x = some e) :
    ∃ e', jsGet (dispatchEntities cfg d now es ids) x = some e' ∧
      e.attempts ≤ e'.attempts := by
  unfold dispatchEntities
  exact foldl_jsUpdate_attempts_mono _
    (fun id e0 => by rw [dispatchStep_attempts]; omega) ids es hget

theorem jsGet_pollEntities_attempts_mono (cfg : Config)
    (po : String → PollOutcome) (now : Nat)
    (es : List (String × EntityStatus)) (ids : List String) {x : String}
    {e : EntityStatus} (hget : jsGet es x = some e) :
    ∃ e', jsGet (pollEntities cfg po now es ids) x = some e' ∧
      e.attempts ≤ e'.attempts := by
  unfold pollEntities
  exact foldl_jsUpdate_attempts_mono _
    (fun _ e0 => by rw [pollStep_attempts]) ids es hget

theorem tickEntities_keys (cfg : Config) (d : String → DispatchOutcome)
    (po : String → PollOutcome) (now : Nat)
    (es : List (String × EntityStatus)) :
    keysOf (tickEntities cfg d po now es) = keysOf es := by
  simp only [tickEntities]
  split
  · split
    · rw [keysOf_pollEntities, keysOf_dispatchEntities]
    · rw [keysOf_pollEntities]
  · split
    · rw [keysOf_dispatchEntities]
    · rfl

theorem tickEntities_length (cfg : Config) (d : String → DispatchOutcome)
    (po : String → PollOutcome) (now : Nat)
    (es : List (String × EntityStatus)) :
    (tickEntities cfg d po now es).length = es.length := by
  have h := congrArg List.length (tickEntities_keys cfg d po now es)
  simpa [keysOf] using h

theorem nodupKeys_tickEntities (cfg : Config) (d : String → DispatchOutcome)
    (po : String → PollOutcome) (now : Nat)
    {es : List (String × EntityStatus)} (hk : nodupKeys es) :
    nodupKeys (tickEntities cfg d po now es) := by
  unfold nodupKeys
  rw [tickEntities_keys]
  exact hk

/-- Terminal stability of one tick: a `done` or `error` entity is touched by
neither the dispatch loop nor the poll loop. -/
theorem tickEntities_get_terminal (cfg : Config)
    (d : String → DispatchOutcome) (po : String → PollOutcome) (now : Nat)
    {es : List (String × EntityStatus)} {x : String} {e : EntityStatus}
    (hk : nodupKeys es) (hget : jsGet es x = some e)
    (hterm : e.status = .done ∨ e.status = .error) :
    jsGet (tickEntities cfg d po now es) x = some e := by
  have hnp : x ∉ pendingIds es := by
    intro hx
    have := of_mem_filter_ids hk hget hx
    have hpend : e.status = .pending := by simpa using this
    rcases hterm with ht | ht <;> rw [ht] at hpend <;> cases hpend
  have hni : x ∉ inFlightIds es := by
    intro hx
    have := of_mem_filter_ids hk hget hx
    have hin : e.status = .dispatched ∨ e.status = .polling := by
      simpa using this
    rcases hterm with ht | ht <;> rcases hin with hi | hi <;>
      rw [ht] at hi <;> cases hi
  have hntake : ∀ n, x ∉ (pendingIds es).take n := fun n hx =>
    hnp (List.mem_of_mem_take hx)
  simp only [tickEntities]
  split
  · rw [jsGet_pollEntities_not_mem _ _ _ _ _ hni]
    split
    · rw [jsGet_dispatchEntities_not_mem _ _ _ _ _ (hntake _)]
      exact hget
    · exact hget
  · split
    · rw [jsGet_dispatchEntities_not_mem _ _ _ _ _ (hntake _)]
      exact hget
    · exact hget

/-- Attempt monotonicity of one tick. -/
theorem tickEntities_attempts_mono (cfg : Config)
    (d : String → DispatchOutcome) (po : String → PollOutcome) (now : Nat)
    {es : List (String × EntityStatus)} {x : String} {e : EntityStatus}
    (hget : jsGet es x = some e) :
    ∃ e', jsGet (tickEntities cfg d po now es) x = some e' ∧
      e.attempts ≤ e'.attempts := by
  simp only [tickEntities]
  split
  · split
    · obtain ⟨e1, hg1, hle1⟩ :=
        jsGet_dispatchEntities_attempts_mono cfg d now es _ hget
      obtain ⟨e2, hg2, hle2⟩ :=
        jsGet_pollEntities_attempts_mono cfg po now _ _ hg1
      exact ⟨e2, hg2, le_trans hle1 hle2⟩
    · exact jsGet_pollEntities_attempts_mono cfg po now _ _ hget
  · split
    · exact jsGet_dispatchEntities_attempts_mono cfg d now es _ hget
    · exact ⟨e, hget, le_refl _⟩

/-- Concurrency bound of one tick: at most `concurrency - in_flight` pending
entities are dispatched, and the poll loop never adds in-flight entities. -/
theorem tickEntities_countInFlight (cfg : Config)
    (d : String → DispatchOutcome) (po : String → PollOutcome) (now : Nat)
    {es : List (String × EntityStatus)} (hk : nodupKeys es)
    (hle : countInFlight es ≤ cfg.concurrency) :
    countInFlight (tickEntities cfg d po now es) ≤ cfg.concurrency := by
  have hdisp : countInFlight (dispatchEntities cfg d now es
      ((pendingIds es).take (cfg.concurrency - (inFlightIds es).length))) ≤
      cfg.concurrency := by
    have h1 := countInFlight_dispatchEntities_le cfg d now es
      ((pendingIds es).take (cfg.concurrency - (inFlightIds es).length)) hk
    have h2 : ((pendingIds es).take
        (cfg.concurrency - (inFlightIds es).length)).length ≤
        cfg.concurrency - (inFlightIds es).length := by
      rw [List.length_take]
      omega
    have h3 : (inFlightIds es).length = countInFlight es :=
      length_inFlightIds es
    omega
  simp only [tickEntities]
  split
  · split
    · exact le_trans (countInFlight_pollEntities_le _ _ _ _ _) hdisp
    · exact le_trans (countInFlight_pollEntities_le _ _ _ _ _) hle
  · split
    · exact hdisp
    · exact hle

/-- The attempt invariant survives one tick. -/
theorem tickEntities_entInv (cfg : Config) (d : String → DispatchOutcome)
    (po : String → PollOutcome) (now : Nat)
    {es : List (String × EntityStatus)} (hk : nodupKeys es)
    (hinv : ∀ p ∈ es, EntInv cfg.max_retries p.2) :
    ∀ p ∈ tickEntities cfg d po now es, EntInv cfg.max_retries p.2 := by
  have hdispatched :
      ∀ p ∈ dispatchEntities cfg d now es
        ((pendingIds es).take (cfg.concurrency - (inFlightIds es).length)),
        EntInv cfg.max_retries p.2 := by
    refine dispatchEntities_entInv cfg d now es _ hk ?_ ?_ hinv
    · exact List.Nodup.sublist (List.take_sublist _ _)
        (nodup_filter_ids _ hk)
    · intro x hx
      have hxp : x ∈ pendingIds es := List.mem_of_mem_take hx
      obtain ⟨e, hge, hfe⟩ := exists_get_of_mem_filter_ids hk hxp
      exact ⟨e, hge, by simpa using hfe⟩
  simp only [tickEntities]
  split
  · split
    · exact pollEntities_entInv cfg po now _ _ hdispatched
    · exact pollEntities_entInv cfg po now _ _ hinv
  · split
    · exact hdispatched
    · exact hinv

/-- Whenever one tick moves an in-flight entity back to `pending`, the
transition clears `sub_job_id` and `poll_start_time` and the retry budget
was not yet exhausted. -/
theorem tickEntities_pending_reset (cfg : Config)
    (d : String → DispatchOutcome) (po : String → PollOutcome) (now : Nat)
    {es : List (String × EntityStatus)} {x : String} {e e' : EntityStatus}
    (hk : nodupKeys es) (hget : jsGet es x = some e)
    (hin : e.status = .dispatched ∨ e.status = .polling)
    (hget' : jsGet (tickEntities cfg d po now es) x = some e')
    (hp : e'.status = .pending) :
    e'.sub_job_id = none ∧ e'.poll_start_time = none ∧
      e.attempts < cfg.max_retries := by
  have hxin : x ∈ inFlightIds es := by
    refine mem_filter_ids_of_get hget ?_
    simpa using hin
  have hnp : x ∉ pendingIds es := by
    intro hx
    have := of_mem_filter_ids hk hget hx
    have hpend : e.status = .pending := by simpa using this
    rcases hin with hi | hi <;> rw [hi] at hpend <;> cases hpend
  have hntake : ∀ n, x ∉ (pendingIds es).take n := fun n hx =>
    hnp (List.mem_of_mem_take hx)
  have hposs : 0 < (inFlightIds es).length :=
    List.length_pos.mpr (fun hE => by rw [hE] at hxin; cases hxin)
  have hndinfl : (inFlightIds es).Nodup := nodup_filter_ids _ hk
  have hval : jsGet (tickEntities cfg d po now es) x =
      some (pollStep cfg po now e) := by
    simp only [tickEntities]
    rw [if_pos hposs]
    split
    · rw [jsGet_pollEntities_mem _ _ _ _ _ hndinfl hxin,
        jsGet_dispatchEntities_not_mem _ _ _ _ _ (hntake _), hget]
      rfl
    · rw [jsGet_pollEntities_mem _ _ _ _ _ hndinfl hxin, hget]
      rfl
  rw [hval] at hget'
  injection hget' with hget'
  subst hget'
  exact pollStep_pending_reset cfg po now e hin hp

theorem promoteRunning_entities (s : JobState) :
    (promoteRunning s).entities = s.entities := by
  unfold promoteRunning
  split <;> rfl

theorem promoteRunning_config (s : JobState) :
    (promoteRunning s).config = s.config := by
  unfold promoteRunning
  split <;> rfl

theorem promoteRunning_expires_at (s : JobState) :
    (promoteRunning s).expires_at = s.expires_at := by
  unfold promoteRunning
  split <;> rfl

theorem promoteRunning_progress (s : JobState) :
    (promoteRunning s).progress = s.progress := by
  unfold promoteRunning
  split <;> rfl

theorem finalize_entities (s : JobState) (now : Nat) :
    (finalize s now).entities = s.entities := by
  simp only [finalize]
  split <;> rfl

theorem finalize_progress (s : JobState) (now : Nat) :
    (finalize s now).progress = computeProgress s.entities := by
  simp only [finalize]
  split <;> rfl

theorem finalize_config (s : JobState) (now : Nat) :
    (finalize s now).config = s.config := by
  simp only [finalize]
  split <;> rfl

theorem processAlarm_of_expired (s0 : JobState) (now : Nat)
    (d : String → DispatchOutcome) (po : String → PollOutcome)
    (hexp : s0.expires_at < now) :
    processAlarm s0 now d po =
      { state := failJob (promoteRunning s0) "EXPIRED"
          "Job expired before completion" now
        reschedule := false } := by
  have h1 : isExpired (promoteRunning s0) now = true := by
    rw [isExpired, promoteRunning_expires_at]
    exact decide_eq_true hexp
  simp only [processAlarm, h1, if_true]

theorem processAlarm_of_final (s0 : JobState) (now : Nat)
    (d : String → DispatchOutcome) (po : String → PollOutcome)
    (hexp : ¬ s0.expires_at < now)
    (hfin : (pendingIds s0.entities).length = 0 ∧
      (inFlightIds s0.entities).length = 0) :
    processAlarm s0 now d po =
      { state := finalize (promoteRunning s0) now, reschedule := false } := by
  have h1 : isExpired (promoteRunning s0) now = false := by
    rw [isExpired, promoteRunning_expires_at]
    exact decide_eq_false hexp
  simp only [processAlarm, h1, Bool.false_eq_true, if_false,
    promoteRunning_entities]
  rw [if_pos hfin]

theorem processAlarm_of_active (s0 : JobState) (now : Nat)
    (d : String → DispatchOutcome) (po : String → PollOutcome)
    (hexp : ¬ s0.expires_at < now)
    (hfin : ¬ ((pendingIds s0.entities).length = 0 ∧
      (inFlightIds s0.entities).length = 0)) :
    processAlarm s0 now d po =
      { state := updateProgress
          { promoteRunning s0 with
              entities := tickEntities s0.config d po now s0.entities }
        reschedule := true } := by
  have h1 : isExpired (promoteRunning s0) now = false := by
    rw [isExpired, promoteRunning_expires_at]
    exact decide_eq_false hexp
  simp only [processAlarm, h1, Bool.false_eq_true, if_false,
    promoteRunning_entities, promoteRunning_config]
  rw [if_neg hfin]

theorem jsSet_of_not_mem {α : Type} {es : List (String × α)} {k : String}
    (v : α) (h : k ∉ keysOf es) : jsSet es k v = es ++ [(k, v)] := by
  induction es with
  | nil => rfl
  | cons p es ih =>
    rcases p with ⟨k', v'⟩
    simp only [keysOf, List.map_cons, List.mem_cons, not_or] at h
    simp only [jsSet]
    rw [if_neg (fun hE => h.1 hE.symm)]
    rw [ih (by simpa [keysOf] using h.2)]
    rfl

theorem foldl_jsSet_of_nodup {α : Type} (v0 : α) (ids : List String) :
    ∀ acc : List (String × α), ids.Nodup → (∀ x ∈ ids, x ∉ keysOf acc) →
      ids.foldl (fun es id => jsSet es id v0) acc =
        acc ++ ids.map (fun id => (id, v0)) := by
  induction ids with
  | nil => intro acc _ _; simp
  | cons a ids ih =>
    intro acc hnd hfresh
    simp only [List.nodup_cons] at hnd
    simp only [List.foldl_cons, List.map_cons]
    rw [jsSet_of_not_mem v0 (hfresh a (List.mem_cons_self a ids))]
    rw [ih (acc ++ [(a, v0)]) hnd.2 ?_]
    · simp
    · intro x hx
      have hxa : x ≠ a := fun hE => hnd.1 (hE ▸ hx)
      have hxacc := hfresh x (List.mem_cons_of_mem a hx)
      simp only [keysOf, List.map_append, List.mem_append]
      intro hmem
      rcases hmem with hmem | hmem
      · exact hxacc (by simpa [keysOf] using hmem)
      · simp at hmem
        exact hxa hmem

theorem initEntities_eq_map (ids : List String) (h : ids.Nodup) :
    initEntities ids =
      ids.map (fun id =>
        (id, ({ status := .pending, attempts := 0 } : EntityStatus))) := by
  unfold initEntities
  rw [foldl_jsSet_of_nodup _ ids [] h (by intro x _; simp [keysOf])]
  simp

theorem initEntities_length (ids : List String) (h : ids.Nodup) :
    (initEntities ids).length = ids.length := by
  rw [initEntities_eq_map ids h]
  simp

theorem mem_jsSet {α : Type} {es : List (String × α)} {k : String} {v : α}
    {p : String × α} (h : p ∈ jsSet es k v) : p ∈ es ∨ p = (k, v) := by
  induction es with
  | nil =>
    right
    simpa [jsSet] using h
  | cons q es ih =>
    rcases q with ⟨k', v'⟩
    by_cases hk : k' = k
    · simp only [jsSet, if_pos hk] at h
      rcases List.mem_cons.mp h with h | h
      · right; exact h
      · left; exact List.mem_cons_of_mem _ h
    · simp only [jsSet, if_neg hk] at h
      rcases List.mem_cons.mp h with h | h
      · left; rw [h]; exact List.mem_cons_self _ _
      · rcases ih h with h | h
        · left; exact List.mem_cons_of_mem _ h
        · right; exact h

theorem initEntities_values (ids : List String) :
    ∀ p ∈ initEntities ids,
      p.2 = ({ status := .pending, attempts := 0 } : EntityStatus) := by
  suffices hgen : ∀ (acc : List (String × EntityStatus)),
      (∀ p ∈ acc, p.2 = ({ status := .pending, attempts := 0 } : EntityStatus)) →
      ∀ p ∈ ids.foldl (fun es id =>
          jsSet es id { status := .pending, attempts := 0 }) acc,
        p.2 = ({ status := .pending, attempts := 0 } : EntityStatus) by
    exact hgen [] (by intro p hp; cases hp)
  induction ids with
  | nil => intro acc hacc; exact hacc
  | cons a ids ih =>
    intro acc hacc
    simp only [List.foldl_cons]
    refine ih _ ?_
    intro p hp
    rcases mem_jsSet hp with h | h
    · exact hacc p h
    · rw [h]

theorem countInFlight_eq_zero {es : List (String × EntityStatus)}
    (h : ∀ p ∈ es, p.2.status = .pending) : countInFlight es = 0 := by
  unfold countInFlight
  rw [List.filter_eq_nil_iff.mpr ?_]
  · rfl
  · intro p hp
    have := h p hp
    simp [this]

theorem computeProgress_relabelPolling (es : List (String × EntityStatus)) :
    computeProgress (relabelPolling es) = computeProgress es := by
  induction es with
  | nil => rfl
  | cons p es ih =>
    rcases p with ⟨k, e⟩
    rcases e with ⟨st, sj, ps, at_, sa, ca, er, re⟩
    have ih' := congrArg JobProgress.pending ih
    have ih2 := congrArg JobProgress.dispatched ih
    have ih3 := congrArg JobProgress.done ih
    have ih4 := congrArg JobProgress.error ih
    have ih5 := congrArg JobProgress.total ih
    cases st <;>
      · simp only [relabelPolling, List.map_cons] at ih ⊢
        simp only [computeProgress, List.filter_cons] at ih' ih2 ih3 ih4 ih5 ⊢
        simp_all [computeProgress, relabelPolling, List.length_map]

theorem terminal_counts {es : List (String × EntityStatus)}
    (hall : ∀ p ∈ es, p.2.status = .done ∨ p.2.status = .error) :
    (computeProgress es).done + (computeProgress es).error = es.length := by
  induction es with
  | nil => simp [computeProgress]
  | cons p es ih =>
    have hh := hall p (List.mem_cons_self _ _)
    have ih' := ih (fun q hq => hall q (List.mem_cons_of_mem _ hq))
    rcases p with ⟨k, e⟩
    rcases e with ⟨st, sj, ps, at_, sa, ca, er, re⟩
    simp only at hh
    rcases hh with hh | hh <;> subst hh <;>
      · simp only [computeProgress, List.filter_cons] at ih' ⊢
        simp_all
        omega

/-- C1 counterexample: an intake whose `entity_ids` list contains a
duplicate (`["a", "a"]`) persists an initial record with
`progress.total = 2` while the entity map holds a single entry, so
`total == len(entities)` fails on an observable state. -/
theorem C1_counterexample :
    ((handleStart none
        { job_id := "j", target := "t", job_collection := "c",
          expires_at := 1000, entity_ids := some ["a", "a"],
          options_max_retries := none, options_concurrency := none }
        [] 0).state.map fun st => (st.progress.total, st.entities.length)) =
      some (2, 1) := by decide

/-- C1 (amended): whenever the effective entity-id list is duplicate-free,
every persisted job state satisfies
`pending + dispatched + done + error = total = len(entities)`: the
recomputation always sums to the map size, the initial record satisfies the
invariant, every tick preserves it, and a tick that reschedules has just
recomputed `progress` from `entities`. With a duplicate id the seeded
`total` counts ids, not entries. -/
theorem C1_progress_invariant :
    (∀ es : List (String × EntityStatus),
      (computeProgress es).pending + (computeProgress es).dispatched +
          (computeProgress es).done + (computeProgress es).error =
        (computeProgress es).total ∧
      (computeProgress es).total = es.length) ∧
    (∀ (req : StartRequest) (disc : List String) (now : Nat) (st : JobState),
      (effectiveIds req disc).Nodup →
      (handleStart none req disc now).state = some st →
      progressConsistent st) ∧
    (∀ (s : JobState) (now : Nat) (d : String → DispatchOutcome)
        (po : String → PollOutcome),
      progressConsistent s →
      progressConsistent (processAlarm s now d po).state) ∧
    (∀ (s : JobState) (now : Nat) (d : String → DispatchOutcome)
        (po : String → PollOutcome),
      (processAlarm s now d po).reschedule = true →
      (processAlarm s now d po).state.progress =
        computeProgress (processAlarm s now d po).state.entities) := by
  refine ⟨computeProgress_sum, ?_, ?_, ?_⟩
  · intro req disc now st hnd hst
    unfold handleStart at hst
    by_cases hemp : (effectiveIds req disc).isEmpty
    · rw [if_pos hemp] at hst
      cases hst
    · rw [if_neg hemp] at hst
      injection hst with hst
      subst hst
      constructor
      · simp [newJobState]
      · simp only [newJobState]
        rw [initEntities_length _ hnd]
  · intro s now d po hpc
    by_cases hexp : s.expires_at < now
    · rw [processAlarm_of_expired s now d po hexp]
      obtain ⟨h1, h2⟩ := hpc
      constructor
      · simpa [failJob, promoteRunning_progress] using h1
      · simpa [failJob, promoteRunning_progress, promoteRunning_entities]
          using h2
    · by_cases hfin : (pendingIds s.entities).length = 0 ∧
        (inFlightIds s.entities).length = 0
      · rw [processAlarm_of_final s now d po hexp hfin]
        constructor
        · simpa [finalize_progress, promoteRunning_entities] using
            (computeProgress_sum s.entities).1
        · simp [finalize_progress, finalize_entities,
            promoteRunning_entities, computeProgress]
      · rw [processAlarm_of_active s now d po hexp hfin]
        constructor
        · exact (computeProgress_sum _).1
        · simp [updateProgress, computeProgress]
  · intro s now d po hres
    by_cases hexp : s.expires_at < now
    · rw [processAlarm_of_expired s now d po hexp] at hres
      cases hres
    · by_cases hfin : (pendingIds s.entities).length = 0 ∧
        (inFlightIds s.entities).length = 0
      · rw [processAlarm_of_final s now d po hexp hfin] at hres
        cases hres
      · rw [processAlarm_of_active s now d po hexp hfin]
        rfl

/-- Witness for C1: the invariant holds after a concrete tick on
`sampleState`, and on the concrete record created by `sampleReq`. -/
theorem C1_progress_invariant_witness :
    progressConsistent (processAlarm sampleState 7 dFail poRun).state ∧
    progressConsistent (newJobState sampleReq ["a", "b"] 0) :=
  ⟨C1_progress_invariant.2.2.1 sampleState 7 dFail poRun (by decide),
    C1_progress_invariant.2.1 sampleReq [] 0 _ (by decide) rfl⟩

/-- C2 counterexample: the worker variant's `POST /process` has no
existing-job check, so a second intake with the same `job_id` overwrites
the stored record — here visibly resetting `started_at` from 0 to 5. -/
theorem C2_counterexample :
    ((jsGet (intakeWorker [] sampleReq [] 0).1 "job:job-1").map
        JobState.started_at) = some 0 ∧
    ((jsGet (intakeWorker (intakeWorker [] sampleReq [] 0).1 sampleReq []
        5).1 "job:job-1").map JobState.started_at) = some 5 := by decide

/-- C2 (amended): in the Durable Object variant, duplicate intake is
idempotent — when a record for the job already exists, `handleStart`
returns `accepted` with the request's job id, leaves the stored record
unchanged, and schedules no new first alarm. The stateless worker variant
instead re-creates the record on duplicate intake. -/
theorem C2_duplicate_intake (st : JobState) (req req' : StartRequest)
    (disc disc' : List String) (now now' : Nat)
    (_hfirst : (handleStart none req disc now).state = some st) :
    handleStart (some st) req' disc' now' =
      { state := some st
        response := .accepted req'.job_id
        alarmScheduled := false } := rfl

/-- Witness for C2: a second `handleStart` on the record created for
`sampleReq` returns it untouched. -/
theorem C2_duplicate_intake_witness :
    handleStart (some (newJobState sampleReq ["a", "b"] 0)) sampleReq [] 5 =
      { state := some (newJobState sampleReq ["a", "b"] 0)
        response := .accepted "job-1"
        alarmScheduled := false } :=
  C2_duplicate_intake (newJobState sampleReq ["a", "b"] 0) sampleReq
    sampleReq [] [] 0 5 (by decide)

/-- C3: on a non-terminal job whose deadline has passed, the next tick
force-fails the job — `status = error` with `error.code = "EXPIRED"` —
before any dispatch or poll work (the entity map is returned untouched),
and schedules no further tick. -/
theorem C3_expiry_precedence (s : JobState) (now : Nat)
    (d : String → DispatchOutcome) (po : String → PollOutcome)
    (_hterm : s.status ≠ .done ∧ s.status ≠ .error)
    (hexp : s.expires_at < now) :
    (processAlarm s now d po).state.status = .error ∧
    (processAlarm s now d po).state.error =
      some { code := "EXPIRED", message := "Job expired before completion" } ∧
    (processAlarm s now d po).reschedule = false ∧
    (processAlarm s now d po).state.entities = s.entities := by
  rw [processAlarm_of_expired s now d po hexp]
  refine ⟨rfl, rfl, rfl, ?_⟩
  simp [failJob, promoteRunning_entities]

/-- Witness for C3: ticking `sampleState` at `now = 2000` (its deadline is
1000) expires it. -/
theorem C3_expiry_precedence_witness :
    (processAlarm sampleState 2000 dFail poRun).state.status = .error ∧
    (processAlarm sampleState 2000 dFail poRun).state.error =
      some { code := "EXPIRED", message := "Job expired before completion" } ∧
    (processAlarm sampleState 2000 dFail poRun).reschedule = false ∧
    (processAlarm sampleState 2000 dFail poRun).state.entities =
      sampleState.entities :=
  C3_expiry_precedence sampleState 2000 dFail poRun (by decide) (by decide)

theorem computeProgress_total (es : List (String × EntityStatus)) :
    (computeProgress es).total = es.length := rfl

theorem finalize_status (s : JobState) (now : Nat) :
    (finalize s now).status =
      if (computeProgress s.entities).error =
          (computeProgress s.entities).total
      then JStatus.error else JStatus.done := by
  simp only [finalize, updateProgress]
  split <;> rfl

theorem finalize_result_counts (s : JobState) (now : Nat) :
    ((finalize s now).result.map fun r => (r.total, r.succeeded, r.failed)) =
      some ((computeProgress s.entities).total,
        (computeProgress s.entities).done,
        (computeProgress s.entities).error) := by
  simp only [finalize, updateProgress]
  split <;> rfl

/-- C4: at finalization of a job whose entities are all terminal, the
status is `error` iff every entity failed (`count(error) = total`),
otherwise — some entity being `done` — the status is `done`, and the
result's `succeeded`/`failed` are the `done`/`error` counts. -/
theorem C4_finalize_status (s : JobState) (now : Nat)
    (hall : ∀ p ∈ s.entities, p.2.status = .done ∨ p.2.status = .error) :
    ((finalize s now).status = .error ↔
      (computeProgress s.entities).error = s.entities.length) ∧
    ((finalize s now).status = .done ↔
      ¬ (computeProgress s.entities).error = s.entities.length) ∧
    (¬ (computeProgress s.entities).error = s.entities.length →
      0 < (computeProgress s.entities).done) ∧
    ((finalize s now).result.map fun r => (r.total, r.succeeded, r.failed)) =
      some (s.entities.length, (computeProgress s.entities).done,
        (computeProgress s.entities).error) := by
  have hstat := finalize_status s now
  rw [computeProgress_total] at hstat
  refine ⟨?_, ?_, ?_, ?_⟩
  · rw [hstat]
    split_ifs with hfe <;> simp [hfe]
  · rw [hstat]
    split_ifs with hfe <;> simp [hfe]
  · intro hne
    have hc := terminal_counts hall
    omega
  · rw [finalize_result_counts]
    rfl

/-- Witness for C4: finalizing `doneSt` (one entity `done`, one `error`)
yields `status = done` with `succeeded = 1`, `failed = 1`. -/
theorem C4_finalize_status_witness :
    ((finalize doneSt 50).status = .error ↔
      (computeProgress doneSt.entities).error = doneSt.entities.length) ∧
    ((finalize doneSt 50).status = .done ↔
      ¬ (computeProgress doneSt.entities).error = doneSt.entities.length) ∧
    (¬ (computeProgress doneSt.entities).error = doneSt.entities.length →
      0 < (computeProgress doneSt.entities).done) ∧
    ((finalize doneSt 50).result.map fun r =>
        (r.total, r.succeeded, r.failed)) =
      some (doneSt.entities.length, (computeProgress doneSt.entities).done,
        (computeProgress doneSt.entities).error) :=
  C4_finalize_status doneSt 50 (by decide)

/-- C5: once an entity is `done` or `error`, a tick leaves its whole record
(state, result, error, attempts, sub_job_id) untouched. -/
theorem C5_terminal_stability (s : JobState) (now : Nat)
    (d : String → DispatchOutcome) (po : String → PollOutcome) (x : String)
    (e : EntityStatus) (hk : nodupKeys s.entities)
    (hget : jsGet s.entities x = some e)
    (hterm : e.status = .done ∨ e.status = .error) :
    jsGet (processAlarm s now d po).state.entities x = some e := by
  by_cases hexp : s.expires_at < now
  · rw [processAlarm_of_expired s now d po hexp]
    show jsGet (failJob (promoteRunning s) "EXPIRED"
      "Job expired before completion" now).entities x = some e
    rw [show (failJob (promoteRunning s) "EXPIRED"
        "Job expired before completion" now).entities = s.entities from by
      simp [failJob, promoteRunning_entities]]
    exact hget
  · by_cases hfin : (pendingIds s.entities).length = 0 ∧
      (inFlightIds s.entities).length = 0
    · rw [processAlarm_of_final s now d po hexp hfin]
      show jsGet (finalize (promoteRunning s) now).entities x = some e
      rw [finalize_entities, promoteRunning_entities]
      exact hget
    · rw [processAlarm_of_active s now d po hexp hfin]
      show jsGet (tickEntities s.config d po now s.entities) x = some e
      exact tickEntities_get_terminal s.config d po now hk hget hterm

/-- Witness for C5: the `done` entity of `doneSt` is untouched by a tick. -/
theorem C5_terminal_stability_witness :
    jsGet (processAlarm doneSt 50 dFail poRun).state.entities "a" =
      some { status := .done, attempts := 1, result := some "ok" } :=
  C5_terminal_stability doneSt 50 dFail poRun "a"
    { status := .done, attempts := 1, result := some "ok" }
    (by decide) (by decide) (by decide)

theorem attemptsInv_congr {s t : JobState} (he : t.entities = s.entities)
    (hc : t.config = s.config) (h : attemptsInv s) : attemptsInv t := by
  unfold attemptsInv at h ⊢
  rw [he, hc]
  exact h

/-- C6 counterexample: with `options.max_retries = 0` (accepted verbatim by
the config merge), the first tick dispatches the pending entity and bumps
`attempts` to 1, so an observable state has
`attempts > config.max_retries`. -/
theorem C6_counterexample :
    ((jsGet (processAlarm (newJobState zeroRetryReq ["e"] 0) 0 dFail
        poRun).state.entities "e").map EntityStatus.attempts) = some 1 ∧
    (newJobState zeroRetryReq ["e"] 0).config.max_retries = 0 := by decide

/-- C6 (amended): `attempts` is monotonically non-decreasing across ticks —
never reset or decremented. The bound `attempts ≤ config.max_retries` is an
invariant of every tick and holds for every freshly created job whose
resolved `max_retries` is at least 1 (the default is 3); a caller-supplied
`max_retries = 0` lets the first dispatch exceed it. -/
theorem C6_attempts_bound :
    (∀ (s : JobState) (now : Nat) (d : String → DispatchOutcome)
        (po : String → PollOutcome) (x : String) (e : EntityStatus),
      jsGet s.entities x = some e →
      ∃ e', jsGet (processAlarm s now d po).state.entities x = some e' ∧
        e.attempts ≤ e'.attempts) ∧
    (∀ (s : JobState) (now : Nat) (d : String → DispatchOutcome)
        (po : String → PollOutcome),
      nodupKeys s.entities → attemptsInv s →
      attemptsInv (processAlarm s now d po).state) ∧
    (∀ (req : StartRequest) (disc : List String) (now : Nat) (st : JobState),
      (handleStart none req disc now).state = some st →
      1 ≤ st.config.max_retries → attemptsInv st) := by
  refine ⟨?_, ?_, ?_⟩
  · intro s now d po x e hget
    by_cases hexp : s.expires_at < now
    · rw [processAlarm_of_expired s now d po hexp]
      refine ⟨e, ?_, le_refl _⟩
      show jsGet (failJob (promoteRunning s) "EXPIRED"
        "Job expired before completion" now).entities x = some e
      rw [show (failJob (promoteRunning s) "EXPIRED"
          "Job expired before completion" now).entities = s.entities from by
        simp [failJob, promoteRunning_entities]]
      exact hget
    · by_cases hfin : (pendingIds s.entities).length = 0 ∧
        (inFlightIds s.entities).length = 0
      · rw [processAlarm_of_final s now d po hexp hfin]
        refine ⟨e, ?_, le_refl _⟩
        show jsGet (finalize (promoteRunning s) now).entities x = some e
        rw [finalize_entities, promoteRunning_entities]
        exact hget
      · rw [processAlarm_of_active s now d po hexp hfin]
        show ∃ e', jsGet (tickEntities s.config d po now s.entities) x =
          some e' ∧ e.attempts ≤ e'.attempts
        exact tickEntities_attempts_mono s.config d po now hget
  · intro s now d po hk hinv
    by_cases hexp : s.expires_at < now
    · rw [processAlarm_of_expired s now d po hexp]
      exact attemptsInv_congr
        (by simp [failJob, promoteRunning_entities])
        (by simp [failJob, promoteRunning_config]) hinv
    · by_cases hfin : (pendingIds s.entities).length = 0 ∧
        (inFlightIds s.entities).length = 0
      · rw [processAlarm_of_final s now d po hexp hfin]
        exact attemptsInv_congr
          (by rw [finalize_entities, promoteRunning_entities])
          (by rw [finalize_config, promoteRunning_config]) hinv
      · rw [processAlarm_of_active s now d po hexp hfin]
        unfold attemptsInv
        have hc : (updateProgress { promoteRunning s with
            entities := tickEntities s.config d po now s.entities }).config =
            s.config := by
          simp [updateProgress, promoteRunning_config]
        rw [hc]
        intro p hp
        have hp' : p ∈ tickEntities s.config d po now s.entities := hp
        exact tickEntities_entInv s.config d po now hk hinv p hp'
  · intro req disc now st hst hmr
    unfold handleStart at hst
    by_cases hemp : (effectiveIds req disc).isEmpty
    · rw [if_pos hemp] at hst
      cases hst
    · rw [if_neg hemp] at hst
      injection hst with hst
      subst hst
      intro p hp
      have hv := initEntities_values (effectiveIds req disc) p hp
      rw [hv]
      refine ⟨Nat.zero_le _, fun _ => ?_⟩
      simpa using hmr

/-- Witness for C6: both the monotonicity and the invariant hold on a
concrete tick of `sampleState`. -/
theorem C6_attempts_bound_witness :
    attemptsInv (processAlarm sampleState 7 dFail poRun).state :=
  C6_attempts_bound.2.1 sampleState 7 dFail poRun (by decide) (by decide)

/-- C7: after scheduling, the number of `dispatched` plus `polling` entities
never exceeds `config.concurrency`: the scheduler dispatches at most
`concurrency - in_flight` pending entities (taken in insertion order) and
polling only removes entities from flight; a fresh job starts with zero in
flight. -/
theorem C7_concurrency_bound :
    (∀ (s : JobState) (now : Nat) (d : String → DispatchOutcome)
        (po : String → PollOutcome),
      nodupKeys s.entities →
      countInFlight s.entities ≤ s.config.concurrency →
      countInFlight (processAlarm s now d po).state.entities ≤
        s.config.concurrency) ∧
    (∀ (req : StartRequest) (disc : List String) (now : Nat) (st : JobState),
      (handleStart none req disc now).state = some st →
      countInFlight st.entities = 0) := by
  constructor
  · intro s now d po hk hle
    by_cases hexp : s.expires_at < now
    · rw [processAlarm_of_expired s now d po hexp]
      show countInFlight (failJob (promoteRunning s) "EXPIRED"
        "Job expired before completion" now).entities ≤ s.config.concurrency
      rw [show (failJob (promoteRunning s) "EXPIRED"
          "Job expired before completion" now).entities = s.entities from by
        simp [failJob, promoteRunning_entities]]
      exact hle
    · by_cases hfin : (pendingIds s.entities).length = 0 ∧
        (inFlightIds s.entities).length = 0
      · rw [processAlarm_of_final s now d po hexp hfin]
        show countInFlight (finalize (promoteRunning s) now).entities ≤
          s.config.concurrency
        rw [finalize_entities, promoteRunning_entities]
        exact hle
      · rw [processAlarm_of_active s now d po hexp hfin]
        show countInFlight (tickEntities s.config d po now s.entities) ≤
          s.config.concurrency
        exact tickEntities_countInFlight s.config d po now hk hle
  · intro req disc now st hst
    unfold handleStart at hst
    by_cases hemp : (effectiveIds req disc).isEmpty
    · rw [if_pos hemp] at hst
      cases hst
    · rw [if_neg hemp] at hst
      injection hst with hst
      subst hst
      refine countInFlight_eq_zero ?_
      intro p hp
      have hv := initEntities_values (effectiveIds req disc) p hp
      rw [hv]

/-- Witness for C7: one tick of `sampleState` with accepting dispatches
keeps at most 5 entities in flight. -/
theorem C7_concurrency_bound_witness :
    countInFlight (processAlarm sampleState 7 dOk poRun).state.entities ≤
      sampleState.config.concurrency :=
  C7_concurrency_bound.1 sampleState 7 dOk poRun (by decide) (by decide)

theorem pollLoop_timeout (probe : Nat → ProbeOutcome) (i t : Nat) :
    ∀ (fuel k : Nat),
      (∀ m, k ≤ m → m * i < t →
        probe m = .netError ∨ probe m = .running) →
      pollLoop probe i t k fuel = pollTimeoutResult := by
  intro fuel
  induction fuel with
  | zero => intro k _; rfl
  | succ fuel ih =>
    intro k h
    by_cases hk : k * i < t
    · have hnt := h k (le_refl k) hk
      rcases hnt with hE | hE <;>
        · simp only [pollLoop, hk, if_true, hE]
          exact ih (k + 1) (fun m hm hmt => h m (by omega) hmt)
    · simp [pollLoop, hk]

theorem pollLoop_done (probe : Nat → ProbeOutcome) (i t : Nat) (r : String)
    (j : Nat) (hj : probe j = .done r) :
    ∀ (fuel k : Nat), k ≤ j → j - k < fuel → j * i < t → 0 < i →
      (∀ m, k ≤ m → m < j →
        probe m = .netError ∨ probe m = .running) →
      pollLoop probe i t k fuel =
        { done := true, status := .done, result := some r } := by
  intro fuel
  induction fuel with
  | zero =>
    intro k _ hfuel _ _ _
    exact absurd hfuel (Nat.not_lt_zero _)
  | succ fuel ih =>
    intro k hkj hfuel hjt hi h
    have hk : k * i < t := lt_of_le_of_lt (Nat.mul_le_mul_right i hkj) hjt
    by_cases hkj' : k = j
    · subst hkj'
      simp [pollLoop, hk, hj]
    · have hklt : k < j := lt_of_le_of_ne hkj hkj'
      have hnt := h k (le_refl k) hklt
      rcases hnt with hE | hE <;>
        · simp only [pollLoop, hk, if_true, hE]
          exact ih (k + 1) (by omega) (by omega) hjt hi
            (fun m hm hmj => h m (by omega) hmj)

/-- C8 counterexample: `pollSubAgentStatus` does not perform a single
status check — two probe schedules that agree on the first check produce
different results, because after a `running` answer the function sleeps and
checks again instead of returning `still_running`. -/
theorem C8_counterexample :
    probeA 0 = probeB 0 ∧
    pollSubAgentStatus probeA 1 3 =
      { done := true, status := .done, result := some "r" } ∧
    pollSubAgentStatus probeB 1 3 = pollTimeoutResult ∧
    pollSubAgentStatus probeA 1 3 ≠ pollSubAgentStatus probeB 1 3 := by
  decide

/-- C8 (amended): `pollSubAgentStatus` loops internally, sleeping
`poll_interval` between checks, until the deadline: a window containing
only transient failures (network error) and `running` answers produces the
timeout result — a transient probe failure alone is never surfaced as a
remote failure — and the loop keeps checking past transient failures until
the worker's first terminal answer inside the deadline, which it returns. -/
theorem C8_poll_loop (probe : Nat → ProbeOutcome)
    (intervalMs timeoutMs j : Nat) (r : String) :
    ((∀ k, k * intervalMs < timeoutMs →
        probe k = .netError ∨ probe k = .running) →
      pollSubAgentStatus probe intervalMs timeoutMs = pollTimeoutResult) ∧
    (0 < intervalMs → j * intervalMs < timeoutMs →
      (∀ k, k < j → probe k = .netError ∨ probe k = .running) →
      probe j = .done r →
      pollSubAgentStatus probe intervalMs timeoutMs =
        { done := true, status := .done, result := some r }) := by
  constructor
  · intro h
    exact pollLoop_timeout probe _ _ (timeoutMs + 1) 0 (fun m _ hm => h m hm)
  · intro hi hjt h hj
    refine pollLoop_done probe _ _ r j hj (timeoutMs + 1) 0 (Nat.zero_le j)
      ?_ hjt hi (fun m _ hmj => h m hmj)
    have hle : j ≤ j * intervalMs := Nat.le_mul_of_pos_right j hi
    omega

/-- Witness for C8: the all-`running` schedule times out, and the schedule
that answers `done` on the second check returns that result. -/
theorem C8_poll_loop_witness :
    pollSubAgentStatus probeB 1 3 = pollTimeoutResult ∧
    pollSubAgentStatus probeA 1 3 =
      { done := true, status := .done, result := some "r" } :=
  ⟨(C8_poll_loop probeB 1 3 0 "r").1 (fun _ _ => Or.inr rfl),
    (C8_poll_loop probeA 1 3 1 "r").2 (by decide) (by decide)
      (fun k hk => by
        have hk0 : k = 0 := by omega
        subst hk0
        exact Or.inr (by decide))
      (by decide)⟩

/-- C9: whenever a tick moves an in-flight (dispatched/polling) entity back
to `pending` — remote terminal failure or poll deadline exceeded with
retries left — the transition clears `sub_job_id` and the poll timer, and
indeed `attempts < config.max_retries` held. -/
theorem C9_retry_reset (s : JobState) (now : Nat)
    (d : String → DispatchOutcome) (po : String → PollOutcome) (x : String)
    (e e' : EntityStatus) (hk : nodupKeys s.entities)
    (hget : jsGet s.entities x = some e)
    (hin : e.status = .dispatched ∨ e.status = .polling)
    (hget' : jsGet (processAlarm s now d po).state.entities x = some e')
    (hp : e'.status = .pending) :
    e'.sub_job_id = none ∧ e'.poll_start_time = none ∧
      e.attempts < s.config.max_retries := by
  by_cases hexp : s.expires_at < now
  · rw [processAlarm_of_expired s now d po hexp] at hget'
    have he : jsGet s.entities x = some e' := by
      have hent : (failJob (promoteRunning s) "EXPIRED"
          "Job expired before completion" now).entities = s.entities := by
        simp [failJob, promoteRunning_entities]
      have h2 : jsGet (failJob (promoteRunning s) "EXPIRED"
          "Job expired before completion" now).entities x = some e' := hget'
      rwa [hent] at h2
    rw [hget] at he
    injection he with he
    subst he
    rcases hin with hi | hi <;> rw [hi] at hp <;> cases hp
  · by_cases hfin : (pendingIds s.entities).length = 0 ∧
      (inFlightIds s.entities).length = 0
    · rw [processAlarm_of_final s now d po hexp hfin] at hget'
      have he : jsGet s.entities x = some e' := by
        have hent : (finalize (promoteRunning s) now).entities =
            s.entities := by
          rw [finalize_entities, promoteRunning_entities]
        have h2 : jsGet (finalize (promoteRunning s) now).entities x =
            some e' := hget'
        rwa [hent] at h2
      rw [hget] at he
      injection he with he
      subst he
      rcases hin with hi | hi <;> rw [hi] at hp <;> cases hp
    · rw [processAlarm_of_active s now d po hexp hfin] at hget'
      have hget'' : jsGet (tickEntities s.config d po now s.entities) x =
          some e' := hget'
      exact tickEntities_pending_reset s.config d po now hk hget hin
        hget'' hp

/-- Witness for C9: ticking `pollSt` at `now = 600000` exceeds the 300000ms
poll deadline; the entity returns to `pending` with `sub_job_id` and
`poll_start_time` cleared, and one attempt below the budget of 3. -/
theorem C9_retry_reset_witness :
    ({ status := .pending, sub_job_id := none, poll_start_time := none,
       attempts := 1, started_at := none, completed_at := none,
       error := some "Poll timeout exceeded", result := none } :
      EntityStatus).sub_job_id = none ∧
    ({ status := .pending, sub_job_id := none, poll_start_time := none,
       attempts := 1, started_at := none, completed_at := none,
       error := some "Poll timeout exceeded", result := none } :
      EntityStatus).poll_start_time = none ∧
    ({ status := .dispatched, sub_job_id := some "sub-a",
       poll_start_time := some 0, attempts := 1 } :
      EntityStatus).attempts < pollSt.config.max_retries :=
  C9_retry_reset pollSt 600000 dFail poRun "a"
    { status := .dispatched, sub_job_id := some "sub-a",
      poll_start_time := some 0, attempts := 1 }
    { status := .pending, sub_job_id := none, poll_start_time := none,
      attempts := 1, started_at := none, completed_at := none,
      error := some "Poll timeout exceeded", result := none }
    (by decide) (by decide) (by decide) (by decide) (by decide)

/-- C10: the recomputed `progress.dispatched` bucket counts `dispatched`
and `polling` entities together — there is no separate `polling` bucket —
so relabelling every `polling` entity as `dispatched` leaves the status
endpoint's response unchanged: an observer cannot tell them apart. -/
theorem C10_polling_collapsed :
    (∀ es : List (String × EntityStatus),
      (computeProgress es).dispatched =
        (es.filter fun p => p.2.status = .dispatched).length +
          (es.filter fun p => p.2.status = .polling).length) ∧
    (∀ s : JobState,
      getStatusResponse (updateProgress
        { s with entities := relabelPolling s.entities }) =
      getStatusResponse (updateProgress s)) := by
  constructor
  · intro es
    induction es with
    | nil => simp [computeProgress]
    | cons p es ih =>
      rcases p with ⟨k, e⟩
      rcases e with ⟨st, sj, ps, at_, sa, ca, er, re⟩
      cases st <;>
        · simp only [computeProgress, List.filter_cons] at ih ⊢
          simp_all
          try omega
  · intro s
    simp [getStatusResponse, updateProgress, computeProgress_relabelPolling]

end Orchestrator


